import Mathlib

/-
  Verification of the mesh-model core of lumina-renderer.

  Shallow embedding of `src/obj_model.py` (class OBJModel: load_obj,
  calculate_normals, cube) and of the interleaved-buffer builder
  `init_vbo` from `src/gl_widget.py`.

  Modelling conventions:
  * Python floats are modelled as exact scalars: the whole development is
    parametric in the scalar type; structural claims are settled over ℚ
    (fully computable) and the numerical normalization claim over ℝ with
    `Real.sqrt` (the idealized real-arithmetic semantics of the code).
  * `np.linalg.norm` is `sqrt (x*x + y*y + z*z)`; the square-root function
    is passed as an explicit parameter so that structural theorems hold for
    every square root and the numerical theorem instantiates `Real.sqrt`.
  * A Python function that can raise (IndexError, ValueError, TypeError)
    is modelled as returning `Option`; `none` means an exception escapes.
  * Python list indexing `xs[i]` with a possibly negative int index is
    modelled by `pyGet` (negative indices address from the end).
  * Python string helpers `str.strip`, `str.split()` (whitespace words),
    `str.split('/')`, `str.startswith`, `int(...)`, `float(...)` are
    modelled over `List Char` by `pyStrip`, `words`, `splitSlash`,
    `startsWithCh`, `pyInt?`, `pyFloat?` (`pyFloat?` covers the finite
    decimal/exponent literals relevant here).
-/

set_option maxRecDepth 4000

namespace Lumina

/-- Python `str.isspace` characters relevant to strip/split. -/
def isSpace (c : Char) : Bool :=
  c = ' ' || c = '\t' || c = '\n' || c = '\r' || c = '\x0b' || c = '\x0c'

/-- Python `str.strip()`: drop leading and trailing whitespace. -/
def pyStrip (cs : List Char) : List Char :=
  ((cs.dropWhile isSpace).reverse.dropWhile isSpace).reverse

/-- Helper for `words`: accumulate the current word (reversed). -/
def wordsAux : List Char → List Char → List (List Char)
  | [], acc => if acc = [] then [] else [acc.reverse]
  | c :: cs, acc =>
    if isSpace c then
      if acc = [] then wordsAux cs [] else acc.reverse :: wordsAux cs []
    else wordsAux cs (c :: acc)

/-- Python `str.split()` with no argument: whitespace-delimited words,
empty strings dropped. -/
def words (cs : List Char) : List (List Char) := wordsAux cs []

/-- Helper for `splitSlash`. -/
def splitSlashAux : List Char → List Char → List (List Char)
  | [], acc => [acc.reverse]
  | c :: cs, acc =>
    if c = '/' then acc.reverse :: splitSlashAux cs []
    else splitSlashAux cs (c :: acc)

/-- Python `str.split('/')`: split at every slash, keeping empty fields. -/
def splitSlash (cs : List Char) : List (List Char) := splitSlashAux cs []

/-- Python `str.startswith(pre)` on character lists. -/
def startsWithCh : List Char → List Char → Bool
  | [], _ => true
  | _ :: _, [] => false
  | p :: ps, c :: cs => (p = c) && startsWithCh ps cs

/-- Decimal value of a digit run. -/
def natVal (cs : List Char) : ℕ :=
  cs.foldl (fun a c => 10 * a + (c.toNat - 48)) 0

/-- Nonempty all-digit run, else failure. -/
def digitsVal? (cs : List Char) : Option ℕ :=
  if cs = [] then none
  else if cs.all Char.isDigit then some (natVal cs)
  else none

/-- Python `int(s)` on the decimal integer literals used by the parser:
optional surrounding whitespace, optional sign, digit run. -/
def pyInt? (w : List Char) : Option ℤ :=
  match pyStrip w with
  | '-' :: cs => (digitsVal? cs).map (fun n => -(n : ℤ))
  | '+' :: cs => (digitsVal? cs).map (fun n => (n : ℤ))
  | cs => (digitsVal? cs).map (fun n => (n : ℤ))

/-- Powers of ten as exact rationals (structural, so that concrete
parses evaluate). -/
def qpow10 : ℕ → ℚ
  | 0 => 1
  | n + 1 => 10 * qpow10 n

/-- Mantissa and exponent of a Python float literal (after the sign):
`digits [. digits] [(e|E) [sign] digits]`, value as an exact rational
(a negative exponent divides by the corresponding power of ten). -/
def pyFloatCore? (cs : List Char) : Option ℚ :=
  let mant := cs.takeWhile (fun c => ¬ (c = 'e' ∨ c = 'E'))
  let rest := cs.dropWhile (fun c => ¬ (c = 'e' ∨ c = 'E'))
  let ip := mant.takeWhile Char.isDigit
  let rest2 := mant.dropWhile Char.isDigit
  let mval? : Option ℚ :=
    match rest2 with
    | [] => if ip = [] then none else some ((natVal ip : ℚ))
    | '.' :: fp =>
      if fp.all Char.isDigit ∧ (ip ≠ [] ∨ fp ≠ []) then
        some ((natVal ip : ℚ) + (natVal fp : ℚ) / qpow10 fp.length)
      else none
    | _ => none
  match rest with
  | [] => mval?
  | _ :: es =>
    let expo? : Option (Bool × ℕ) :=
      match es with
      | '-' :: ds => if ds ≠ [] ∧ ds.all Char.isDigit then some (true, natVal ds) else none
      | '+' :: ds => if ds ≠ [] ∧ ds.all Char.isDigit then some (false, natVal ds) else none
      | ds => if ds ≠ [] ∧ ds.all Char.isDigit then some (false, natVal ds) else none
    match mval?, expo? with
    | some m, some (sgn, d) => some (if sgn then m / qpow10 d else m * qpow10 d)
    | _, _ => none

/-- Python `float(s)` on finite decimal literals (no inf/nan/underscores,
which never occur in the sources this parser accepts). -/
def pyFloat? (w : List Char) : Option ℚ :=
  match pyStrip w with
  | '-' :: cs => (pyFloatCore? cs).map (fun q => -q)
  | '+' :: cs => pyFloatCore? cs
  | cs => pyFloatCore? cs

/-- A 3-component vector, the shape of every vertex and normal
(`[x, y, z]` lists in the Python code). -/
structure Vec3 (α : Type) where
  x : α
  y : α
  z : α
deriving DecidableEq, Repr

/-- Componentwise subtraction, as the numpy `v1 - v0`. -/
def Vec3.sub [Sub α] (a b : Vec3 α) : Vec3 α :=
  ⟨a.x - b.x, a.y - b.y, a.z - b.z⟩

/-- The numpy `np.cross` of two 3-vectors. -/
def cross [Sub α] [Mul α] (a b : Vec3 α) : Vec3 α :=
  ⟨a.y * b.z - a.z * b.y, a.z * b.x - a.x * b.z, a.x * b.y - a.y * b.x⟩

/-- Squared Euclidean norm; `np.linalg.norm v = sqrt (normSq v)`. -/
def normSq [Add α] [Mul α] (a : Vec3 α) : α :=
  a.x * a.x + a.y * a.y + a.z * a.z

/-- Componentwise division by a scalar, as numpy `v / mag`. -/
def Vec3.divS [Div α] (a : Vec3 α) (s : α) : Vec3 α :=
  ⟨a.x / s, a.y / s, a.z / s⟩

/-- The `[x, y, z]` list underlying a vector (Python stores plain lists). -/
def vecList (a : Vec3 α) : List α := [a.x, a.y, a.z]

/-- One face corner: `(v_idx, n_idx)` with the normal index optional,
exactly the tuple stored by `load_obj`. -/
abbrev Corner := ℤ × Option ℤ

/-- The `OBJModel` class state: vertices, normals, faces, material color,
and the `has_normals` flag. -/
structure OBJModel (α : Type) where
  vertices : List (Vec3 α)
  normals : List (Vec3 α)
  faces : List (List Corner)
  material_color : List α
  has_normals : Bool
deriving DecidableEq

/-- Python list indexing `xs[i]` on an `int` index: nonnegative indices
from the front, negative indices from the end, out of range raises. -/
def pyGet (xs : List β) (i : ℤ) : Option β :=
  if 0 ≤ i then xs[i.toNat]?
  else if 0 ≤ (xs.length : ℤ) + i then xs[((xs.length : ℤ) + i).toNat]?
  else none

/-- Corner parsing from `load_obj`: `vals = part.split('/')`,
`v_idx = int(vals[0]) - 1`,
`n_idx = int(vals[2]) - 1 if len(vals) > 2 and vals[2] else None`. -/
def parseCorner (part : List Char) : Option Corner :=
  let vals := splitSlash part
  match pyInt? (vals.getD 0 []) with
  | none => none
  | some v =>
    if 2 < vals.length ∧ vals.getD 2 [] ≠ [] then
      match pyInt? (vals.getD 2 []) with
      | none => none
      | some n => some (v - 1, some (n - 1))
    else some (v - 1, none)

/-- The corner loop `for part in parts[1:]: face.append(...)`:
the first exception aborts the whole parse. -/
def parseCorners : List (List Char) → Option (List Corner)
  | [] => some []
  | p :: ps =>
    match parseCorner p with
    | none => none
    | some c =>
      match parseCorners ps with
      | none => none
      | some cs => some (c :: cs)

/-- Default corner used only as the (never-reached) fallback of in-bounds
list lookups in `triangulate`. -/
def dCorner : Corner := ((0 : ℤ), (none : Option ℤ))

/-- The triangulation step of `load_obj`: a face with more than 3 corners
becomes the fan `[face[0], face[i], face[i+1]]` for `i in range(1, len-1)`;
any other face (including those with fewer than 3 corners) is appended
verbatim. -/
def triangulate (face : List Corner) : List (List Corner) :=
  if 3 < face.length then
    (List.range' 1 (face.length - 2)).map
      (fun i => [face.getD 0 dCorner, face.getD i dCorner, face.getD (i + 1) dCorner])
  else [face]

/-- Lookup of `parts[i]` followed by `float(...)`: missing field or malformed
number both raise. -/
def floatAt (parts : List (List Char)) (i : ℕ) : Option ℚ :=
  (parts[i]?).bind pyFloat?

/-- One iteration of the `for line in file` loop of `load_obj`. -/
def parseLine (m : OBJModel ℚ) (line : String) : Option (OBJModel ℚ) :=
  let cs := line.toList
  if startsWithCh ("v ".toList) cs then
    let parts := words (pyStrip cs)
    match floatAt parts 1, floatAt parts 2, floatAt parts 3 with
    | some x, some y, some z => some { m with vertices := m.vertices ++ [⟨x, y, z⟩] }
    | _, _, _ => none
  else if startsWithCh ("vn ".toList) cs then
    let parts := words (pyStrip cs)
    match floatAt parts 1, floatAt parts 2, floatAt parts 3 with
    | some x, some y, some z => some { m with normals := m.normals ++ [⟨x, y, z⟩] }
    | _, _, _ => none
  else if startsWithCh ("f ".toList) cs then
    let parts := words (pyStrip cs)
    match parseCorners (parts.drop 1) with
    | none => none
    | some face => some { m with faces := m.faces ++ triangulate face }
  else some m

/-- The line loop of `load_obj`. -/
def loadLines (m : OBJModel ℚ) : List String → Option (OBJModel ℚ)
  | [] => some m
  | l :: ls =>
    match parseLine m l with
    | none => none
    | some m2 => loadLines m2 ls

/-- The `load_obj` method: consume every line, then
`self.has_normals = len(self.normals) > 0`. -/
def load_obj (m : OBJModel ℚ) (lines : List String) : Option (OBJModel ℚ) :=
  match loadLines m lines with
  | none => none
  | some m2 => some { m2 with has_normals := decide (0 < m2.normals.length) }

/-- A freshly constructed `OBJModel()` (the `__init__` defaults). -/
def emptyModel : OBJModel ℚ :=
  { vertices := [], normals := [], faces := [],
    material_color := [1, 1, 1, 1], has_normals := false }

/-- Parsing as `OBJModel(filename)` does: default-initialize, then `load_obj`. -/
def parseOBJ (lines : List String) : Option (OBJModel ℚ) :=
  load_obj emptyModel lines

/-- The body of the `for face in self.faces` loop of `calculate_normals`
for one face at fresh normal index `idx`: fetch the positions of corners
0, 1, 2 (IndexError on a short face or a bad vertex index aborts), take
the cross product, normalize it unless its norm is zero, and rewrite
every corner's normal index to `idx`. -/
def calcFace [Add α] [Zero α] [Sub α] [Mul α] [Div α] [DecidableEq α] (sqrt : α → α)
    (verts : List (Vec3 α)) (face : List Corner) (idx : ℕ) :
    Option (Vec3 α × List Corner) :=
  match face[0]?, face[1]?, face[2]? with
  | some c0, some c1, some c2 =>
    match pyGet verts c0.1, pyGet verts c1.1, pyGet verts c2.1 with
    | some v0, some v1, some v2 =>
      let n := cross (Vec3.sub v1 v0) (Vec3.sub v2 v0)
      let nn := if sqrt (normSq n) ≠ 0 then Vec3.divS n (sqrt (normSq n)) else n
      some (nn, face.map (fun c => (c.1, some (idx : ℤ))))
    | _, _, _ => none
  | _, _, _ => none

/-- The face loop of `calculate_normals`: after `self.normals = []`, the
fresh index `normal_idx = len(self.normals)` of the i-th processed face
is exactly `i`. Returns the rebuilt normal and face sequences. -/
def calcLoop [Add α] [Zero α] [Sub α] [Mul α] [Div α] [DecidableEq α] (sqrt : α → α)
    (verts : List (Vec3 α)) :
    List (List Corner) → ℕ → Option (List (Vec3 α) × List (List Corner))
  | [], _ => some ([], [])
  | f :: fs, i =>
    match calcFace sqrt verts f i with
    | none => none
    | some (n, f2) =>
      match calcLoop sqrt verts fs (i + 1) with
      | none => none
      | some (ns, fs2) => some (n :: ns, f2 :: fs2)

/-- The `calculate_normals` method: reset the normal sequence, synthesize one flat
normal per face, rewrite every corner's normal index, and set
`has_normals = True`. -/
def calculate_normals [Add α] [Zero α] [Sub α] [Mul α] [Div α] [DecidableEq α] (sqrt : α → α)
    (m : OBJModel α) : Option (OBJModel α) :=
  match calcLoop sqrt m.vertices m.faces 0 with
  | none => none
  | some (ns, fs) => some { m with normals := ns, faces := fs, has_normals := true }

/-- The state of `OBJModel.cube()` just before its `calculate_normals`
call: a fresh `OBJModel()` whose `vertices` and `faces` have been
assigned the 8 hard-coded corners and 12 hard-coded triangles. -/
def cubeInit : OBJModel ℚ :=
  { vertices :=
      [⟨-1, -1, -1⟩, ⟨1, -1, -1⟩, ⟨1, 1, -1⟩, ⟨-1, 1, -1⟩,
       ⟨-1, -1, 1⟩, ⟨1, -1, 1⟩, ⟨1, 1, 1⟩, ⟨-1, 1, 1⟩],
    normals := [],
    faces :=
      [[(0, none), (1, none), (2, none)], [(0, none), (2, none), (3, none)],
       [(4, none), (6, none), (5, none)], [(4, none), (7, none), (6, none)],
       [(0, none), (3, none), (7, none)], [(0, none), (7, none), (4, none)],
       [(1, none), (5, none), (6, none)], [(1, none), (6, none), (2, none)],
       [(3, none), (2, none), (6, none)], [(3, none), (6, none), (7, none)],
       [(0, none), (4, none), (5, none)], [(0, none), (5, none), (1, none)]],
    material_color := [1, 1, 1, 1], has_normals := false }

/-- The static `OBJModel.cube()`: the hard-coded cube followed immediately by
`calculate_normals`. -/
def cube (sqrt : ℚ → ℚ) : Option (OBJModel ℚ) :=
  calculate_normals sqrt cubeInit

/-- The per-corner body of `init_vbo`: `vertex = vertices[idx]`,
`normal = normals[normal_idx] if has_normals else [0.0, 0.0, 0.0]`,
`data.extend(vertex + normal)`. Indexing `normals[None]` (absent normal
index while `has_normals` is set) raises a TypeError, modelled as `none`. -/
def cornerFloats [Zero α] (m : OBJModel α) (c : Corner) : Option (List α) :=
  match pyGet m.vertices c.1 with
  | none => none
  | some v =>
    match (if m.has_normals then
             match c.2 with
             | some ni => pyGet m.normals ni
             | none => none
           else some (⟨0, 0, 0⟩ : Vec3 α)) with
    | none => none
    | some n => some (vecList v ++ vecList n)

/-- The inner `for idx, normal_idx in face` loop of `init_vbo`,
accumulating into `data`. -/
def vboCorners [Zero α] (m : OBJModel α) (data : List α) :
    List Corner → Option (List α)
  | [] => some data
  | c :: cs =>
    match cornerFloats m c with
    | none => none
    | some d => vboCorners m (data ++ d) cs

/-- The outer `for face in self.object.faces` loop of `init_vbo`. -/
def vboFaces [Zero α] (m : OBJModel α) (data : List α) :
    List (List Corner) → Option (List α)
  | [] => some data
  | f :: fs =>
    match vboCorners m data f with
    | none => none
    | some data2 => vboFaces m data2 fs

/-- The buffer built by `init_vbo` (the Build operation of the spec):
the flat interleaved float list uploaded to the VBO. -/
def init_vbo [Zero α] (m : OBJModel α) : Option (List α) :=
  vboFaces m [] m.faces

/-- The assignment `self.vertex_count = len(data) // 6`. -/
def vertex_count (data : List α) : ℕ := data.length / 6

/-! ### Basic lemmas about the string helpers and triangulation -/

theorem startsWithCh_iff (pre : List Char) :
    ∀ s, startsWithCh pre s = true ↔ ∃ t, s = pre ++ t := by
  induction pre with
  | nil => intro s; simp [startsWithCh]
  | cons p ps ih =>
    intro s
    cases s with
    | nil => simp [startsWithCh]
    | cons c cs =>
      simp only [startsWithCh, Bool.and_eq_true, decide_eq_true_eq, ih cs,
        List.cons_append, List.cons.injEq]
      constructor
      · rintro ⟨rfl, t, rfl⟩; exact ⟨t, rfl, rfl⟩
      · rintro ⟨t, rfl, rfl⟩; exact ⟨rfl, t, rfl⟩

theorem notV_of_F (cs : List Char) (h : startsWithCh ("f ".toList) cs = true) :
    startsWithCh ("v ".toList) cs = false := by
  obtain ⟨t, rfl⟩ := (startsWithCh_iff _ _).mp h
  rfl

theorem notVN_of_F (cs : List Char) (h : startsWithCh ("f ".toList) cs = true) :
    startsWithCh ("vn ".toList) cs = false := by
  obtain ⟨t, rfl⟩ := (startsWithCh_iff _ _).mp h
  rfl

theorem notV_of_VN (cs : List Char) (h : startsWithCh ("vn ".toList) cs = true) :
    startsWithCh ("v ".toList) cs = false := by
  obtain ⟨t, rfl⟩ := (startsWithCh_iff _ _).mp h
  rfl

theorem triangulate_short (face : List Corner) (h : ¬ 3 < face.length) :
    triangulate face = [face] := by
  unfold triangulate
  rw [if_neg h]

/-! ### Claim C2 -/

/-- C2, counterexample: the claim says a face line with fewer than 3
corners (such as `f 1 2`) makes Parse fail; in the code, `load_obj`
raises nothing there and stores the 2-corner face verbatim, so parsing
the single line `f 1 2` succeeds with that face stored. -/
theorem short_face_cex :
    parseOBJ ["f 1 2"] =
      some { vertices := [], normals := [],
             faces := [[((0 : ℤ), none), ((1 : ℤ), none)]],
             material_color := [1, 1, 1, 1], has_normals := false } := by
  decide

/-- C2, amended: for every face line whose corner list parses with fewer
than 3 corners, Parse succeeds and appends that short face verbatim (no
FormatError is raised and no triangulation happens). -/
theorem short_face_stored (m : OBJModel ℚ) (line : String) (face : List Corner)
    (hf : startsWithCh ("f ".toList) line.toList = true)
    (hc : parseCorners ((words (pyStrip line.toList)).drop 1) = some face)
    (hlen : face.length < 3) :
    parseLine m line = some { m with faces := m.faces ++ [face] } := by
  have hv := notV_of_F _ hf
  have hvn := notVN_of_F _ hf
  have ht : triangulate face = [face] := triangulate_short _ (by omega)
  simp only [parseLine, hv, hvn, hf, Bool.false_eq_true, if_false, if_true, hc, ht]

/-- C2, witness for `short_face_stored` at the line `f 1 2`. -/
theorem short_face_stored_witness :
    (startsWithCh ("f ".toList) ("f 1 2" : String).toList = true ∧
      parseCorners ((words (pyStrip ("f 1 2" : String).toList)).drop 1) =
        some [((0 : ℤ), none), ((1 : ℤ), none)] ∧
      ([((0 : ℤ), (none : Option ℤ)), ((1 : ℤ), none)]).length < 3) ∧
    parseLine emptyModel "f 1 2" =
      some { emptyModel with faces := emptyModel.faces ++ [[((0 : ℤ), none), ((1 : ℤ), none)]] } :=
  ⟨⟨by decide, by decide, by decide⟩,
    short_face_stored emptyModel "f 1 2" [((0 : ℤ), none), ((1 : ℤ), none)]
      (by decide) (by decide) (by decide)⟩

/-! ### Claim C6 -/

/-- C6: Parse-time triangulation. A parsed corner list of length 3 is
stored verbatim; one of length k > 3 is stored as the `k - 2` fan
triangles `[corner 0, corner i, corner (i+1)]` for `i = 1 .. k-2`; no
stored face ever has more than 3 corners; and a 4-corner face
`[c0, c1, c2, c3]` yields exactly `[c0, c1, c2]` then `[c0, c2, c3]`,
as witnessed concretely by parsing the line `f 1 2 3 4`. -/
theorem fan_triangulation (cs : List Corner) (c0 c1 c2 c3 : Corner) :
    (cs.length = 3 → triangulate cs = [cs]) ∧
    (3 < cs.length → triangulate cs =
      (List.range' 1 (cs.length - 2)).map
        (fun i => [cs.getD 0 dCorner, cs.getD i dCorner, cs.getD (i + 1) dCorner])) ∧
    (∀ t ∈ triangulate cs, t.length ≤ 3) ∧
    triangulate [c0, c1, c2, c3] = [[c0, c1, c2], [c0, c2, c3]] ∧
    parseOBJ ["f 1 2 3 4"] =
      some { vertices := [], normals := [],
             faces := [[((0 : ℤ), none), ((1 : ℤ), none), ((2 : ℤ), none)],
                       [((0 : ℤ), none), ((2 : ℤ), none), ((3 : ℤ), none)]],
             material_color := [1, 1, 1, 1], has_normals := false } := by
  refine ⟨fun h3 => triangulate_short _ (by omega), fun hgt => ?_, ?_, ?_, by decide⟩
  · unfold triangulate
    rw [if_pos hgt]
  · intro t ht
    unfold triangulate at ht
    by_cases hgt : 3 < cs.length
    · rw [if_pos hgt] at ht
      obtain ⟨i, _, rfl⟩ := List.mem_map.mp ht
      simp
    · rw [if_neg hgt] at ht
      simp only [List.mem_singleton] at ht
      subst ht
      omega
  · rfl

/-- C6, witness for `fan_triangulation` on a concrete 3-corner list. -/
theorem fan_triangulation_witness :
    ([((5 : ℤ), (none : Option ℤ)), ((6 : ℤ), none), ((7 : ℤ), none)]).length = 3 ∧
    triangulate [((5 : ℤ), none), ((6 : ℤ), none), ((7 : ℤ), none)] =
      [[((5 : ℤ), none), ((6 : ℤ), none), ((7 : ℤ), none)]] :=
  ⟨by decide,
    (fan_triangulation [((5 : ℤ), none), ((6 : ℤ), none), ((7 : ℤ), none)]
      dCorner dCorner dCorner dCorner).1 (by decide)⟩

/-! ### Claim C8 -/

/-- C8: for every successfully parsed corner token, the stored vertex
index is the first slash-delimited field's integer value minus 1, and the
stored normal index is the third field's value minus 1 when a third field
is present and nonempty, and is absent otherwise. -/
theorem corner_index_conv (part : List Char) (c : Corner)
    (h : parseCorner part = some c) :
    (∃ n, pyInt? ((splitSlash part).getD 0 []) = some n ∧ c.1 = n - 1) ∧
    ((2 < (splitSlash part).length ∧ (splitSlash part).getD 2 [] ≠ []) →
      ∃ k, pyInt? ((splitSlash part).getD 2 []) = some k ∧ c.2 = some (k - 1)) ∧
    (¬ (2 < (splitSlash part).length ∧ (splitSlash part).getD 2 [] ≠ []) →
      c.2 = none) := by
  simp only [parseCorner] at h
  split at h
  · exact absurd h (by simp)
  · rename_i n hn
    split at h
    · rename_i hcond
      split at h
      · exact absurd h (by simp)
      · rename_i k hk
        cases h
        exact ⟨⟨n, hn, rfl⟩, fun _ => ⟨k, hk, rfl⟩, fun hc => absurd hcond hc⟩
    · rename_i hcond
      cases h
      exact ⟨⟨n, hn, rfl⟩, fun hc => absurd hc hcond, fun _ => rfl⟩

/-- C8, witness for `corner_index_conv` on the corner token `3//7`. -/
theorem corner_index_conv_witness :
    parseCorner ("3//7".toList) = some ((2 : ℤ), some (6 : ℤ)) ∧
    (∃ n, pyInt? ((splitSlash ("3//7".toList)).getD 0 []) = some n ∧
      ((2 : ℤ), some (6 : ℤ)).1 = n - 1) :=
  ⟨by decide, (corner_index_conv ("3//7".toList) ((2 : ℤ), some (6 : ℤ)) (by decide)).1⟩

/-! ### Helper lemmas about the buffer builder -/

/-- Ordered concatenation of the lists produced for each element, the way
`data.extend(...)` accumulates across a loop. -/
def catMap (g : β → List γ) : List β → List γ
  | [] => []
  | x :: xs => g x ++ catMap g xs

theorem catMap_congr (g g2 : β → List γ) :
    ∀ (l : List β), (∀ x ∈ l, g x = g2 x) → catMap g l = catMap g2 l := by
  intro l
  induction l with
  | nil => intro _; rfl
  | cons x xs ih =>
    intro h
    simp only [catMap, h x (List.mem_cons_self x xs), ih fun y hy => h y (List.mem_cons_of_mem x hy)]

theorem catMap_length (g : β → List γ) (k : ℕ) :
    ∀ (l : List β), (∀ x ∈ l, (g x).length = k) → (catMap g l).length = k * l.length := by
  intro l
  induction l with
  | nil => intro _; simp [catMap]
  | cons x xs ih =>
    intro h
    simp only [catMap, List.length_append, h x (List.mem_cons_self x xs),
      ih fun y hy => h y (List.mem_cons_of_mem x hy), List.length_cons]
    ring

theorem vboCorners_spec [Zero α] (m : OBJModel α) :
    ∀ (cs : List Corner), (∀ c ∈ cs, (cornerFloats m c).isSome) →
      ∀ data, vboCorners m data cs =
        some (data ++ catMap (fun c => (cornerFloats m c).getD []) cs) := by
  intro cs
  induction cs with
  | nil => intro _ data; simp [vboCorners, catMap]
  | cons c cs ih =>
    intro h data
    obtain ⟨d, hd⟩ := Option.isSome_iff_exists.mp (h c (List.mem_cons_self c cs))
    simp only [vboCorners, hd, catMap,
      ih (fun y hy => h y (List.mem_cons_of_mem c hy)) (data ++ d), Option.getD_some,
      List.append_assoc]

theorem vboFaces_spec [Zero α] (m : OBJModel α) :
    ∀ (fs : List (List Corner)), (∀ f ∈ fs, ∀ c ∈ f, (cornerFloats m c).isSome) →
      ∀ data, vboFaces m data fs =
        some (data ++
          catMap (fun f => catMap (fun c => (cornerFloats m c).getD []) f) fs) := by
  intro fs
  induction fs with
  | nil => intro _ data; simp [vboFaces, catMap]
  | cons f fs ih =>
    intro h data
    simp only [vboFaces, vboCorners_spec m f (h f (List.mem_cons_self f fs)) data, catMap,
      ih (fun g hg => h g (List.mem_cons_of_mem f hg)), List.append_assoc]

theorem cornerFloats_absent [Zero α] (m : OBJModel α) (c : Corner)
    (hn : m.has_normals = true) (hc : c.2 = none) : cornerFloats m c = none := by
  unfold cornerFloats
  cases hv : pyGet m.vertices c.1 with
  | none => rfl
  | some v => rw [hn, hc]; rfl

theorem vboCorners_of_bad [Zero α] (m : OBJModel α) (c : Corner)
    (hc : cornerFloats m c = none) :
    ∀ (cs : List Corner), c ∈ cs → ∀ data, vboCorners m data cs = none := by
  intro cs
  induction cs with
  | nil => intro h; cases h
  | cons d ds ih =>
    intro hmem data
    rcases List.mem_cons.mp hmem with h | h
    · subst h; simp [vboCorners, hc]
    · unfold vboCorners
      cases hd : cornerFloats m d with
      | none => rfl
      | some v => exact ih h _

theorem vboFaces_of_bad [Zero α] (m : OBJModel α) (f : List Corner)
    (hf : ∀ data, vboCorners m data f = none) :
    ∀ (fs : List (List Corner)), f ∈ fs → ∀ data, vboFaces m data fs = none := by
  intro fs
  induction fs with
  | nil => intro h; cases h
  | cons g gs ih =>
    intro hmem data
    rcases List.mem_cons.mp hmem with h | h
    · subst h; simp [vboFaces, hf data]
    · unfold vboFaces
      cases hg : vboCorners m data g with
      | none => rfl
      | some d => exact ih h _

/-! ### Claim C1 -/

/-- Concrete mesh for C1: no normals supplied, `has_normals` false, and
every corner's normal index absent. -/
def cmC1 : OBJModel ℚ :=
  { vertices := [⟨1, 2, 3⟩], normals := [],
    faces := [[(0, none), (0, none), (0, none)]],
    material_color := [1, 1, 1, 1], has_normals := false }

/-- C1, counterexample: the claim says Build must fail on a mesh with
`has_normals == false` whose corners carry no normal index; in the code,
`init_vbo` substitutes `[0.0, 0.0, 0.0]` for the normal in that case and
happily produces a buffer. -/
theorem vbo_no_normals_cex :
    cmC1.has_normals = false ∧
    (∀ f ∈ cmC1.faces, ∀ c ∈ f, c.2 = none) ∧
    init_vbo cmC1 =
      some [1, 2, 3, 0, 0, 0, 1, 2, 3, 0, 0, 0, 1, 2, 3, 0, 0, 0] := by
  decide

/-- C1, amended: when `has_normals` is false, Build does not fail — it
emits the zero vector as every corner's normal and succeeds (given valid
vertex indices); an absent `normal_index` aborts Build (with a TypeError,
not a StateError) only when `has_normals` is true. -/
theorem vbo_zero_fallback [Zero α] (m : OBJModel α) :
    (m.has_normals = false →
      (∀ f ∈ m.faces, ∀ c ∈ f, (pyGet m.vertices c.1).isSome) →
      init_vbo m = some (catMap (fun f => catMap
        (fun c => vecList ((pyGet m.vertices c.1).getD ⟨0, 0, 0⟩) ++ [0, 0, 0]) f)
        m.faces)) ∧
    (m.has_normals = true →
      ∀ f ∈ m.faces, ∀ c ∈ f, c.2 = none → init_vbo m = none) := by
  constructor
  · intro hn hok
    have hcf : ∀ f ∈ m.faces, ∀ c ∈ f, cornerFloats m c =
        some (vecList ((pyGet m.vertices c.1).getD ⟨0, 0, 0⟩) ++ [0, 0, 0]) := by
      intro f hf c hc
      obtain ⟨v, hv⟩ := Option.isSome_iff_exists.mp (hok f hf c hc)
      unfold cornerFloats
      rw [hv, hn]
      simp [vecList]
    have hsome : ∀ f ∈ m.faces, ∀ c ∈ f, (cornerFloats m c).isSome := by
      intro f hf c hc
      rw [hcf f hf c hc]
      rfl
    unfold init_vbo
    rw [vboFaces_spec m m.faces hsome []]
    simp only [List.nil_append]
    refine congrArg some (catMap_congr _ _ m.faces fun f hf => ?_)
    exact catMap_congr _ _ f fun c hc => by rw [hcf f hf c hc]; rfl
  · intro hn f hf c hc habs
    exact vboFaces_of_bad m f
      (vboCorners_of_bad m c (cornerFloats_absent m c hn habs) f hc) m.faces hf []

/-- Second concrete mesh for C1's witness: `has_normals` true but a
corner's normal index absent — here Build does abort. -/
def cmC1b : OBJModel ℚ :=
  { vertices := [⟨1, 2, 3⟩], normals := [⟨9, 9, 9⟩],
    faces := [[(0, some 0), (0, none), (0, some 0)]],
    material_color := [1, 1, 1, 1], has_normals := true }

/-- C1, witness for `vbo_zero_fallback` on both branches. -/
theorem vbo_zero_fallback_witness :
    (cmC1.has_normals = false ∧
      init_vbo cmC1 = some (catMap (fun f => catMap
        (fun c => vecList ((pyGet cmC1.vertices c.1).getD ⟨0, 0, 0⟩) ++ [0, 0, 0]) f)
        cmC1.faces)) ∧
    (cmC1b.has_normals = true ∧ init_vbo cmC1b = none) :=
  ⟨⟨by decide, (vbo_zero_fallback cmC1).1 (by decide) (by decide)⟩,
    ⟨by decide, (vbo_zero_fallback cmC1b).2 (by decide)
      [(0, some 0), (0, none), (0, some 0)] (by decide) (0, none) (by decide) rfl⟩⟩

/-! ### Claim C5 -/

/-- C5: when normals are present and every face has 3 corners with valid
vertex and normal indices, Build emits, per face in face order and per
corner in stored order, the corner's vertex position immediately followed
by the normal looked up through the corner's normal index; the flat
output has exactly `6 * 3 * face_count` floats, and the renderer's
`vertex_count` is `output_length / 6 = 3 * face_count`. -/
theorem vbo_interleaved [Zero α] (m : OBJModel α)
    (hn : m.has_normals = true)
    (h3 : ∀ f ∈ m.faces, f.length = 3)
    (hok : ∀ f ∈ m.faces, ∀ c ∈ f, (pyGet m.vertices c.1).isSome ∧
      ∃ ni, c.2 = some ni ∧ (pyGet m.normals ni).isSome) :
    ∃ buf, init_vbo m = some buf ∧
      buf = catMap (fun f => catMap (fun c =>
        vecList ((pyGet m.vertices c.1).getD ⟨0, 0, 0⟩) ++
        vecList ((pyGet m.normals (c.2.getD 0)).getD ⟨0, 0, 0⟩)) f) m.faces ∧
      buf.length = 6 * 3 * m.faces.length ∧
      vertex_count buf = buf.length / 6 ∧
      vertex_count buf = 3 * m.faces.length := by
  have hcf : ∀ f ∈ m.faces, ∀ c ∈ f, cornerFloats m c =
      some (vecList ((pyGet m.vertices c.1).getD ⟨0, 0, 0⟩) ++
        vecList ((pyGet m.normals (c.2.getD 0)).getD ⟨0, 0, 0⟩)) := by
    intro f hf c hc
    obtain ⟨hv, ni, hni, hnrm⟩ := hok f hf c hc
    obtain ⟨v, hv⟩ := Option.isSome_iff_exists.mp hv
    obtain ⟨nv, hnv⟩ := Option.isSome_iff_exists.mp hnrm
    unfold cornerFloats
    rw [hv, hn, hni]
    simp only [if_true, hnv, hni, Option.getD_some]
  have hsome : ∀ f ∈ m.faces, ∀ c ∈ f, (cornerFloats m c).isSome := by
    intro f hf c hc
    rw [hcf f hf c hc]
    rfl
  have hvbo : init_vbo m = some (catMap (fun f => catMap (fun c =>
      vecList ((pyGet m.vertices c.1).getD ⟨0, 0, 0⟩) ++
      vecList ((pyGet m.normals (c.2.getD 0)).getD ⟨0, 0, 0⟩)) f) m.faces) := by
    unfold init_vbo
    rw [vboFaces_spec m m.faces hsome []]
    simp only [List.nil_append]
    refine congrArg some (catMap_congr _ _ m.faces fun f hf => ?_)
    exact catMap_congr _ _ f fun c hc => by rw [hcf f hf c hc]; rfl
  refine ⟨_, hvbo, rfl, ?_⟩
  have hlen : (catMap (fun f => catMap (fun c =>
      vecList ((pyGet m.vertices c.1).getD ⟨0, 0, 0⟩) ++
      vecList ((pyGet m.normals (c.2.getD 0)).getD ⟨0, 0, 0⟩)) f) m.faces).length =
      18 * m.faces.length := by
    refine catMap_length _ 18 m.faces fun f hf => ?_
    have : (catMap (fun c =>
        vecList ((pyGet m.vertices c.1).getD ⟨0, 0, 0⟩) ++
        vecList ((pyGet m.normals (c.2.getD 0)).getD ⟨0, 0, 0⟩)) f).length =
        6 * f.length := by
      refine catMap_length _ 6 f fun c hc => ?_
      simp [vecList]
    rw [this, h3 f hf]
  refine ⟨by rw [hlen], rfl, ?_⟩
  unfold vertex_count
  rw [hlen]
  omega

/-- Concrete mesh for C5's witness. -/
def cmC5 : OBJModel ℚ :=
  { vertices := [⟨1, 0, 0⟩, ⟨0, 1, 0⟩, ⟨0, 0, 1⟩], normals := [⟨7, 8, 9⟩],
    faces := [[(0, some 0), (1, some 0), (2, some 0)]],
    material_color := [1, 1, 1, 1], has_normals := true }

/-- C5, witness for `vbo_interleaved` on `cmC5`. -/
theorem vbo_interleaved_witness :
    (cmC5.has_normals = true ∧ (∀ f ∈ cmC5.faces, f.length = 3)) ∧
    ∃ buf, init_vbo cmC5 = some buf ∧
      buf = catMap (fun f => catMap (fun c =>
        vecList ((pyGet cmC5.vertices c.1).getD ⟨0, 0, 0⟩) ++
        vecList ((pyGet cmC5.normals (c.2.getD 0)).getD ⟨0, 0, 0⟩)) f) cmC5.faces ∧
      buf.length = 6 * 3 * cmC5.faces.length ∧
      vertex_count buf = buf.length / 6 ∧
      vertex_count buf = 3 * cmC5.faces.length :=
  ⟨⟨by decide, by decide⟩,
    vbo_interleaved cmC5 (by decide) (by decide) (by decide)⟩

/-! ### Helper lemmas about `calculate_normals` -/

theorem calcFace_eq [Add α] [Zero α] [Sub α] [Mul α] [Div α] [DecidableEq α]
    (sqrt : α → α) (verts : List (Vec3 α)) (face : List Corner) (idx : ℕ)
    (c0 c1 c2 : Corner) (v0 v1 v2 : Vec3 α)
    (h0 : face[0]? = some c0) (h1 : face[1]? = some c1) (h2 : face[2]? = some c2)
    (hv0 : pyGet verts c0.1 = some v0) (hv1 : pyGet verts c1.1 = some v1)
    (hv2 : pyGet verts c2.1 = some v2) :
    calcFace sqrt verts face idx =
      some ((if sqrt (normSq (cross (Vec3.sub v1 v0) (Vec3.sub v2 v0))) ≠ 0
             then Vec3.divS (cross (Vec3.sub v1 v0) (Vec3.sub v2 v0))
                    (sqrt (normSq (cross (Vec3.sub v1 v0) (Vec3.sub v2 v0))))
             else cross (Vec3.sub v1 v0) (Vec3.sub v2 v0)),
            face.map (fun c => (c.1, some (idx : ℤ)))) := by
  unfold calcFace
  rw [h0, h1, h2]
  dsimp only
  rw [hv0, hv1, hv2]

theorem calcFace_isSome [Add α] [Zero α] [Sub α] [Mul α] [Div α] [DecidableEq α]
    (sqrt : α → α) (verts : List (Vec3 α)) (f : List Corner) (idx : ℕ)
    (h3 : 3 ≤ f.length) (hok : ∀ c ∈ f, (pyGet verts c.1).isSome) :
    (calcFace sqrt verts f idx).isSome := by
  obtain ⟨c0, h0⟩ : ∃ c, f[0]? = some c := ⟨_, List.getElem?_eq_getElem (by omega)⟩
  obtain ⟨c1, h1⟩ : ∃ c, f[1]? = some c := ⟨_, List.getElem?_eq_getElem (by omega)⟩
  obtain ⟨c2, h2⟩ : ∃ c, f[2]? = some c := ⟨_, List.getElem?_eq_getElem (by omega)⟩
  obtain ⟨v0, hv0⟩ := Option.isSome_iff_exists.mp (hok _ (List.getElem?_mem h0))
  obtain ⟨v1, hv1⟩ := Option.isSome_iff_exists.mp (hok _ (List.getElem?_mem h1))
  obtain ⟨v2, hv2⟩ := Option.isSome_iff_exists.mp (hok _ (List.getElem?_mem h2))
  rw [calcFace_eq sqrt verts f idx _ _ _ v0 v1 v2 h0 h1 h2 hv0 hv1 hv2]
  rfl

theorem calcFace_snd [Add α] [Zero α] [Sub α] [Mul α] [Div α] [DecidableEq α]
    (sqrt : α → α) (verts : List (Vec3 α)) (f : List Corner) (idx : ℕ)
    (p : Vec3 α × List Corner) (h : calcFace sqrt verts f idx = some p) :
    p.2 = f.map (fun c => (c.1, some (idx : ℤ))) := by
  unfold calcFace at h
  split at h
  · split at h
    · cases h; rfl
    · exact absurd h (by simp)
  · exact absurd h (by simp)

theorem calcLoop_spec [Add α] [Zero α] [Sub α] [Mul α] [Div α] [DecidableEq α]
    (sqrt : α → α) (verts : List (Vec3 α)) :
    ∀ (faces : List (List Corner)) (k : ℕ),
    (∀ f ∈ faces, ∀ i, (calcFace sqrt verts f i).isSome) →
    ∃ ns fs2, calcLoop sqrt verts faces k = some (ns, fs2) ∧
      ns.length = faces.length ∧ fs2.length = faces.length ∧
      ∀ (j : ℕ) (f : List Corner), faces[j]? = some f →
        fs2[j]? = some (f.map (fun c => (c.1, some ((k + j : ℕ) : ℤ)))) := by
  intro faces
  induction faces with
  | nil =>
    intro k _
    exact ⟨[], [], rfl, rfl, rfl, fun j f hj => by simp at hj⟩
  | cons g gs ih =>
    intro k h
    obtain ⟨p, hp⟩ := Option.isSome_iff_exists.mp (h g (List.mem_cons_self g gs) k)
    obtain ⟨n, f2⟩ := p
    obtain ⟨ns, fs2, hloop, hns, hfs, hidx⟩ :=
      ih (k + 1) (fun f hf i => h f (List.mem_cons_of_mem g hf) i)
    refine ⟨n :: ns, f2 :: fs2, ?_, by simp [hns], by simp [hfs], ?_⟩
    · unfold calcLoop
      rw [hp, hloop]
    · intro j f hj
      cases j with
      | zero =>
        simp only [List.getElem?_cons_zero, Option.some.injEq] at hj
        obtain rfl := hj
        have hsnd : f2 = g.map (fun c => (c.1, some (k : ℤ))) :=
          calcFace_snd sqrt verts g k (n, f2) hp
        simp [hsnd]
      | succ j =>
        rw [List.getElem?_cons_succ] at hj
        rw [List.getElem?_cons_succ, hidx j f hj]
        have : k + 1 + j = k + (j + 1) := by omega
        rw [this]

/-! ### Claim C3 -/

/-- C3: on a mesh whose faces all have 3 corners with valid vertex
indices, `calculate_normals` always succeeds, rebuilds the normal
sequence from scratch with exactly one fresh normal per face (so its
length is the face count, regardless of any previously supplied
normals), assigns face j's fresh index j to all of its corners, and sets
`has_normals` to true. Stated for every square-root function, hence in
particular for the floating-point one. -/
theorem calc_normals_replaces [Add α] [Zero α] [Sub α] [Mul α] [Div α] [DecidableEq α]
    (sqrt : α → α) (m : OBJModel α)
    (h3 : ∀ f ∈ m.faces, f.length = 3)
    (hok : ∀ f ∈ m.faces, ∀ c ∈ f, (pyGet m.vertices c.1).isSome) :
    ∃ m2, calculate_normals sqrt m = some m2 ∧
      m2.normals.length = m.faces.length ∧
      m2.faces.length = m.faces.length ∧
      (∀ (j : ℕ) (f : List Corner), m.faces[j]? = some f →
        m2.faces[j]? = some (f.map (fun c => (c.1, some (j : ℤ))))) ∧
      m2.has_normals = true := by
  obtain ⟨ns, fs2, hloop, hns, hfs, hidx⟩ :=
    calcLoop_spec sqrt m.vertices m.faces 0
      (fun f hf i => calcFace_isSome sqrt m.vertices f i (by rw [h3 f hf]) (hok f hf))
  refine ⟨{ m with normals := ns, faces := fs2, has_normals := true }, ?_, hns, hfs, ?_, rfl⟩
  · unfold calculate_normals
    rw [hloop]
  · intro j f hj
    simpa using hidx j f hj

/-- Concrete mesh for C3's witness: it already has a (to-be-discarded)
normal and a partially supplied normal index. -/
def cmC3 : OBJModel ℚ :=
  { vertices := [⟨0, 0, 0⟩, ⟨1, 0, 0⟩, ⟨0, 1, 0⟩], normals := [⟨5, 5, 5⟩],
    faces := [[(0, none), (1, some 0), (2, none)]],
    material_color := [1, 1, 1, 1], has_normals := true }

/-- C3, witness for `calc_normals_replaces` at `cmC3` with the identity
as the square-root function. -/
theorem calc_normals_replaces_witness :
    ((∀ f ∈ cmC3.faces, f.length = 3) ∧
      (∀ f ∈ cmC3.faces, ∀ c ∈ f, (pyGet cmC3.vertices c.1).isSome)) ∧
    ∃ m2, calculate_normals id cmC3 = some m2 ∧
      m2.normals.length = cmC3.faces.length ∧
      m2.faces.length = cmC3.faces.length ∧
      (∀ (j : ℕ) (f : List Corner), cmC3.faces[j]? = some f →
        m2.faces[j]? = some (f.map (fun c => (c.1, some (j : ℤ))))) ∧
      m2.has_normals = true :=
  ⟨⟨by decide, by decide⟩,
    calc_normals_replaces id cmC3 (by decide) (by decide)⟩

/-! ### Claim C10 -/

/-- C10: on a mesh whose faces all have 3 corners with valid vertex
indices, `calculate_normals` leaves the vertex sequence, the material
color, and every corner's vertex index unchanged; only the normal
sequence, the corners' normal indices and `has_normals` are written. -/
theorem calc_normals_preserves [Add α] [Zero α] [Sub α] [Mul α] [Div α] [DecidableEq α]
    (sqrt : α → α) (m : OBJModel α)
    (h3 : ∀ f ∈ m.faces, f.length = 3)
    (hok : ∀ f ∈ m.faces, ∀ c ∈ f, (pyGet m.vertices c.1).isSome) :
    ∃ m2, calculate_normals sqrt m = some m2 ∧
      m2.vertices = m.vertices ∧
      m2.material_color = m.material_color ∧
      m2.faces.length = m.faces.length ∧
      ∀ (j : ℕ) (f : List Corner), m.faces[j]? = some f →
        ∃ f2 : List Corner, m2.faces[j]? = some f2 ∧
          f2.map Prod.fst = f.map Prod.fst := by
  obtain ⟨ns, fs2, hloop, hns, hfs, hidx⟩ :=
    calcLoop_spec sqrt m.vertices m.faces 0
      (fun f hf i => calcFace_isSome sqrt m.vertices f i (by rw [h3 f hf]) (hok f hf))
  refine ⟨{ m with normals := ns, faces := fs2, has_normals := true }, ?_, rfl, rfl, hfs, ?_⟩
  · unfold calculate_normals
    rw [hloop]
  · intro j f hj
    refine ⟨f.map (fun c => (c.1, some ((0 + j : ℕ) : ℤ))), hidx j f hj, ?_⟩
    simp [List.map_map, Function.comp]

/-! ### Claim C4: real-arithmetic properties of the synthesized normals -/

theorem normSq_nonneg_real (v : Vec3 ℝ) : 0 ≤ normSq v := by
  unfold normSq
  nlinarith [mul_self_nonneg v.x, mul_self_nonneg v.y, mul_self_nonneg v.z]

theorem normSq_eq_zero_real (v : Vec3 ℝ) :
    normSq v = 0 ↔ v = ⟨0, 0, 0⟩ := by
  obtain ⟨x, y, z⟩ := v
  unfold normSq
  simp only [Vec3.mk.injEq]
  constructor
  · intro h
    refine ⟨?_, ?_, ?_⟩ <;>
      nlinarith [mul_self_nonneg x, mul_self_nonneg y, mul_self_nonneg z]
  · rintro ⟨rfl, rfl, rfl⟩
    ring

theorem calcLoop_at [Add α] [Zero α] [Sub α] [Mul α] [Div α] [DecidableEq α]
    (sqrt : α → α) (verts : List (Vec3 α)) :
    ∀ (faces : List (List Corner)) (k : ℕ) (ns : List (Vec3 α))
      (fs2 : List (List Corner)),
    calcLoop sqrt verts faces k = some (ns, fs2) →
    ∀ (j : ℕ) (f : List Corner), faces[j]? = some f →
      ∃ n f2, calcFace sqrt verts f (k + j) = some (n, f2) ∧ ns[j]? = some n := by
  intro faces
  induction faces with
  | nil =>
    intro k ns fs2 _ j f hj
    simp at hj
  | cons g gs ih =>
    intro k ns fs2 h j f hj
    unfold calcLoop at h
    cases hp : calcFace sqrt verts g k with
    | none => rw [hp] at h; exact absurd h (by simp)
    | some p =>
      obtain ⟨n, f2⟩ := p
      rw [hp] at h
      dsimp only at h
      cases hq : calcLoop sqrt verts gs (k + 1) with
      | none => rw [hq] at h; exact absurd h (by simp)
      | some q =>
        obtain ⟨ns1, fs1⟩ := q
        rw [hq] at h
        dsimp only at h
        simp only [Option.some.injEq, Prod.mk.injEq] at h
        obtain ⟨rfl, rfl⟩ := h
        cases j with
        | zero =>
          simp only [List.getElem?_cons_zero, Option.some.injEq] at hj
          obtain rfl := hj
          exact ⟨n, f2, by rwa [Nat.add_zero], List.getElem?_cons_zero⟩
        | succ j =>
          rw [List.getElem?_cons_succ] at hj
          obtain ⟨n2, f3, hcf, hn2⟩ := ih (k + 1) ns1 fs1 hq j f hj
          refine ⟨n2, f3, ?_, by rwa [List.getElem?_cons_succ]⟩
          have : k + (j + 1) = k + 1 + j := by omega
          rwa [this]

/-- C4: every normal `calculate_normals` synthesizes (over the real
numbers, with the genuine square root) for a face whose fetched corner
positions span a nonzero cross product (non-collinear, nonzero area) has
squared norm exactly 1 — unit length; and for a degenerate face whose
cross product is the zero vector, the stored normal is exactly the zero
vector — no error and, in exact real arithmetic, no NaN. -/
theorem calc_normals_unit_or_zero (m m2 : OBJModel ℝ) (j : ℕ)
    (f : List Corner) (c0 c1 c2 : Corner) (v0 v1 v2 : Vec3 ℝ)
    (hm : calculate_normals Real.sqrt m = some m2)
    (hf : m.faces[j]? = some f)
    (h0 : f[0]? = some c0) (h1 : f[1]? = some c1) (h2 : f[2]? = some c2)
    (hv0 : pyGet m.vertices c0.1 = some v0)
    (hv1 : pyGet m.vertices c1.1 = some v1)
    (hv2 : pyGet m.vertices c2.1 = some v2) :
    ∃ n, m2.normals[j]? = some n ∧
      (cross (Vec3.sub v1 v0) (Vec3.sub v2 v0) ≠ ⟨0, 0, 0⟩ → normSq n = 1) ∧
      (cross (Vec3.sub v1 v0) (Vec3.sub v2 v0) = ⟨0, 0, 0⟩ → n = ⟨0, 0, 0⟩) := by
  unfold calculate_normals at hm
  cases hq : calcLoop Real.sqrt m.vertices m.faces 0 with
  | none => rw [hq] at hm; exact absurd hm (by simp)
  | some q =>
    obtain ⟨ns, fs2⟩ := q
    rw [hq] at hm
    dsimp only at hm
    simp only [Option.some.injEq] at hm
    subst hm
    obtain ⟨n, f2, hcf, hn⟩ := calcLoop_at Real.sqrt m.vertices m.faces 0 ns fs2 hq j f hf
    rw [calcFace_eq Real.sqrt m.vertices f (0 + j) c0 c1 c2 v0 v1 v2
      h0 h1 h2 hv0 hv1 hv2] at hcf
    simp only [Option.some.injEq, Prod.mk.injEq] at hcf
    obtain ⟨hval, _⟩ := hcf
    refine ⟨n, hn, ?_, ?_⟩
    · intro hcr
      have hpos : 0 < normSq (cross (Vec3.sub v1 v0) (Vec3.sub v2 v0)) :=
        lt_of_le_of_ne (normSq_nonneg_real _)
          (fun h => hcr ((normSq_eq_zero_real _).mp h.symm))
      have hs : Real.sqrt (normSq (cross (Vec3.sub v1 v0) (Vec3.sub v2 v0))) ≠ 0 :=
        ne_of_gt (Real.sqrt_pos.mpr hpos)
      rw [if_pos hs] at hval
      subst hval
      set cr := cross (Vec3.sub v1 v0) (Vec3.sub v2 v0) with hcrdef
      set s := Real.sqrt (normSq cr) with hsdef
      have hss : s * s = normSq cr := Real.mul_self_sqrt (normSq_nonneg_real cr)
      have hdiv : normSq (Vec3.divS cr s) = normSq cr / (s * s) := by
        unfold normSq Vec3.divS
        rw [div_mul_div_comm, div_mul_div_comm, div_mul_div_comm,
          div_add_div_same, div_add_div_same]
      rw [hdiv, hss, div_self (ne_of_gt hpos)]
    · intro hcr
      have h0sq : normSq (cross (Vec3.sub v1 v0) (Vec3.sub v2 v0)) = 0 :=
        (normSq_eq_zero_real _).mpr hcr
      rw [h0sq, Real.sqrt_zero] at hval
      rw [if_neg (by simp)] at hval
      subst hval
      exact hcr

/-- Concrete real mesh for C4's witness: one face spanning the unit
right triangle in the xy-plane. -/
def wRm : OBJModel ℝ :=
  { vertices := [⟨0, 0, 0⟩, ⟨1, 0, 0⟩, ⟨0, 1, 0⟩], normals := [],
    faces := [[(0, none), (1, none), (2, none)]],
    material_color := [1, 1, 1, 1], has_normals := false }

/-- The result of `calculate_normals` on `wRm`: the flat unit normal
`(0, 0, 1)`. -/
def wRm2 : OBJModel ℝ :=
  { vertices := [⟨0, 0, 0⟩, ⟨1, 0, 0⟩, ⟨0, 1, 0⟩], normals := [⟨0, 0, 1⟩],
    faces := [[(0, some 0), (1, some 0), (2, some 0)]],
    material_color := [1, 1, 1, 1], has_normals := true }

theorem wRm_eval : calculate_normals Real.sqrt wRm = some wRm2 := by
  have h0 : pyGet wRm.vertices (0 : ℤ) = some ⟨0, 0, 0⟩ := rfl
  have h1 : pyGet wRm.vertices (1 : ℤ) = some ⟨1, 0, 0⟩ := rfl
  have h2 : pyGet wRm.vertices (2 : ℤ) = some ⟨0, 1, 0⟩ := rfl
  have hcf := calcFace_eq Real.sqrt wRm.vertices
    [((0 : ℤ), (none : Option ℤ)), (1, none), (2, none)] 0
    (0, none) (1, none) (2, none) ⟨0, 0, 0⟩ ⟨1, 0, 0⟩ ⟨0, 1, 0⟩
    rfl rfl rfl h0 h1 h2
  have hcr : cross (Vec3.sub (⟨1, 0, 0⟩ : Vec3 ℝ) ⟨0, 0, 0⟩)
      (Vec3.sub (⟨0, 1, 0⟩ : Vec3 ℝ) ⟨0, 0, 0⟩) = ⟨0, 0, 1⟩ := by
    unfold Vec3.sub cross
    norm_num
  rw [hcr] at hcf
  have hns : normSq (⟨0, 0, 1⟩ : Vec3 ℝ) = 1 := by
    unfold normSq
    norm_num
  rw [hns, Real.sqrt_one, if_pos (one_ne_zero (α := ℝ))] at hcf
  have hdiv : Vec3.divS (⟨0, 0, 1⟩ : Vec3 ℝ) 1 = ⟨0, 0, 1⟩ := by
    unfold Vec3.divS
    norm_num
  rw [hdiv] at hcf
  unfold calculate_normals
  have hl : calcLoop Real.sqrt wRm.vertices wRm.faces 0 =
      some ([⟨0, 0, 1⟩],
        [[((0 : ℤ), some (0 : ℤ)), (1, some 0), (2, some 0)]]) := by
    show calcLoop Real.sqrt wRm.vertices
      [[((0 : ℤ), (none : Option ℤ)), (1, none), (2, none)]] 0 = _
    unfold calcLoop
    rw [hcf]
    rfl
  rw [hl]
  rfl

/-- C4, witness for `calc_normals_unit_or_zero` at `wRm`: the stored
normal is unit length. -/
theorem calc_normals_unit_or_zero_witness :
    calculate_normals Real.sqrt wRm = some wRm2 ∧
    ∃ n, wRm2.normals[0]? = some n ∧ normSq n = 1 := by
  obtain ⟨n, hn, hunit, _⟩ := calc_normals_unit_or_zero wRm wRm2 0
    [((0 : ℤ), (none : Option ℤ)), (1, none), (2, none)]
    (0, none) (1, none) (2, none) ⟨0, 0, 0⟩ ⟨1, 0, 0⟩ ⟨0, 1, 0⟩
    wRm_eval rfl rfl rfl rfl rfl rfl rfl
  refine ⟨wRm_eval, n, hn, hunit ?_⟩
  unfold Vec3.sub cross
  norm_num

/-- C10, witness for `calc_normals_preserves` at `cmC3` with the
identity as the square-root function. -/
theorem calc_normals_preserves_witness :
    ((∀ f ∈ cmC3.faces, f.length = 3) ∧
      (∀ f ∈ cmC3.faces, ∀ c ∈ f, (pyGet cmC3.vertices c.1).isSome)) ∧
    ∃ m2, calculate_normals id cmC3 = some m2 ∧
      m2.vertices = cmC3.vertices ∧
      m2.material_color = cmC3.material_color ∧
      m2.faces.length = cmC3.faces.length ∧
      ∀ (j : ℕ) (f : List Corner), cmC3.faces[j]? = some f →
        ∃ f2 : List Corner, m2.faces[j]? = some f2 ∧
          f2.map Prod.fst = f.map Prod.fst :=
  ⟨⟨by decide, by decide⟩,
    calc_normals_preserves id cmC3 (by decide) (by decide)⟩

/-! ### Claim C9 -/

theorem cornerFloats_length [Zero α] (m : OBJModel α) (c : Corner) (d : List α)
    (h : cornerFloats m c = some d) : d.length = 6 := by
  unfold cornerFloats at h
  split at h
  · exact absurd h (by simp)
  · split at h
    · exact absurd h (by simp)
    · simp only [Option.some.injEq] at h
      subst h
      simp [vecList]

theorem list12_ext (l l2 : List β)
    (h0 : l[0]? = l2[0]?) (h1 : l[1]? = l2[1]?) (h2 : l[2]? = l2[2]?)
    (h3 : l[3]? = l2[3]?) (h4 : l[4]? = l2[4]?) (h5 : l[5]? = l2[5]?)
    (h6 : l[6]? = l2[6]?) (h7 : l[7]? = l2[7]?) (h8 : l[8]? = l2[8]?)
    (h9 : l[9]? = l2[9]?) (h10 : l[10]? = l2[10]?) (h11 : l[11]? = l2[11]?)
    (hl : l.length = 12) (hl2 : l2.length = 12) : l = l2 := by
  refine List.ext_getElem? fun n => ?_
  by_cases hn : n < 12
  · interval_cases n <;> assumption
  · rw [List.getElem?_eq_none (by omega), List.getElem?_eq_none (by omega)]

/-- C9: `cube` always succeeds (for every square-root function, hence
for the floating-point one) and yields exactly the 8 vertices at all
sign combinations of `(±1, ±1, ±1)`, 12 triangular faces whose three
corners all carry that face's fresh flat-normal index (produced by the
immediately-following `calculate_normals`), 12 normals, `has_normals`
set, and a Build (`init_vbo`) output of exactly 216 floats
(`vertex_count = 36`). -/
theorem cube_fixture (sqrt : ℚ → ℚ) :
    ∃ c, cube sqrt = some c ∧
      c.vertices = [⟨-1, -1, -1⟩, ⟨1, -1, -1⟩, ⟨1, 1, -1⟩, ⟨-1, 1, -1⟩,
        ⟨-1, -1, 1⟩, ⟨1, -1, 1⟩, ⟨1, 1, 1⟩, ⟨-1, 1, 1⟩] ∧
      c.vertices.length = 8 ∧
      c.faces =
        [[((0 : ℤ), some (0 : ℤ)), (1, some 0), (2, some 0)],
         [(0, some 1), (2, some 1), (3, some 1)],
         [(4, some 2), (6, some 2), (5, some 2)],
         [(4, some 3), (7, some 3), (6, some 3)],
         [(0, some 4), (3, some 4), (7, some 4)],
         [(0, some 5), (7, some 5), (4, some 5)],
         [(1, some 6), (5, some 6), (6, some 6)],
         [(1, some 7), (6, some 7), (2, some 7)],
         [(3, some 8), (2, some 8), (6, some 8)],
         [(3, some 9), (6, some 9), (7, some 9)],
         [(0, some 10), (4, some 10), (5, some 10)],
         [(0, some 11), (5, some 11), (1, some 11)]] ∧
      c.faces.length = 12 ∧
      c.normals.length = 12 ∧
      c.has_normals = true ∧
      ∃ buf, init_vbo c = some buf ∧ buf.length = 216 ∧ vertex_count buf = 36 := by
  have h3 : ∀ f ∈ cubeInit.faces, f.length = 3 := by decide
  have hok : ∀ f ∈ cubeInit.faces, ∀ c ∈ f, (pyGet cubeInit.vertices c.1).isSome := by
    decide
  obtain ⟨ns, fs2, hloop, hns, hfs, hidx⟩ :=
    calcLoop_spec sqrt cubeInit.vertices cubeInit.faces 0
      (fun f hf i => calcFace_isSome sqrt cubeInit.vertices f i
        (by rw [h3 f hf]) (hok f hf))
  have hns12 : ns.length = 12 := by rw [hns]; rfl
  have hfs12 : fs2.length = 12 := by rw [hfs]; rfl
  have hfaces : fs2 =
      [[((0 : ℤ), some (0 : ℤ)), (1, some 0), (2, some 0)],
       [(0, some 1), (2, some 1), (3, some 1)],
       [(4, some 2), (6, some 2), (5, some 2)],
       [(4, some 3), (7, some 3), (6, some 3)],
       [(0, some 4), (3, some 4), (7, some 4)],
       [(0, some 5), (7, some 5), (4, some 5)],
       [(1, some 6), (5, some 6), (6, some 6)],
       [(1, some 7), (6, some 7), (2, some 7)],
       [(3, some 8), (2, some 8), (6, some 8)],
       [(3, some 9), (6, some 9), (7, some 9)],
       [(0, some 10), (4, some 10), (5, some 10)],
       [(0, some 11), (5, some 11), (1, some 11)]] := by
    refine list12_ext fs2 _ ?_ ?_ ?_ ?_ ?_ ?_ ?_ ?_ ?_ ?_ ?_ ?_ hfs12 (by decide)
    · rw [hidx 0 _ rfl]; decide
    · rw [hidx 1 _ rfl]; decide
    · rw [hidx 2 _ rfl]; decide
    · rw [hidx 3 _ rfl]; decide
    · rw [hidx 4 _ rfl]; decide
    · rw [hidx 5 _ rfl]; decide
    · rw [hidx 6 _ rfl]; decide
    · rw [hidx 7 _ rfl]; decide
    · rw [hidx 8 _ rfl]; decide
    · rw [hidx 9 _ rfl]; decide
    · rw [hidx 10 _ rfl]; decide
    · rw [hidx 11 _ rfl]; decide
  have hcube : cube sqrt =
      some { cubeInit with normals := ns, faces := fs2, has_normals := true } := by
    unfold cube calculate_normals
    rw [hloop]
  have hnsget : ∀ j : ℤ, 0 ≤ j → j < 12 → (pyGet ns j).isSome := by
    intro j hj0 hj12
    unfold pyGet
    rw [if_pos hj0, List.getElem?_eq_getElem (by rw [hns12]; omega)]
    rfl
  have hcf : ∀ (v j : ℤ), 0 ≤ v → v < 8 → 0 ≤ j → j < 12 →
      (cornerFloats { cubeInit with normals := ns, faces := fs2, has_normals := true }
        (v, some j)).isSome := by
    intro v j hv0 hv8 hj0 hj12
    have hvv : (pyGet cubeInit.vertices v).isSome := by
      unfold pyGet
      rw [if_pos hv0, List.getElem?_eq_getElem (by
        show v.toNat < (cubeInit.vertices).length
        have : (cubeInit.vertices).length = 8 := rfl
        omega)]
      rfl
    obtain ⟨vv, hvv⟩ := Option.isSome_iff_exists.mp hvv
    obtain ⟨nv, hnv⟩ := Option.isSome_iff_exists.mp (hnsget j hj0 hj12)
    unfold cornerFloats
    dsimp only
    rw [hvv, hnv]
    rfl
  have hcorners : ∀ f ∈ fs2, ∀ cr ∈ f,
      0 ≤ cr.1 ∧ cr.1 < 8 ∧ ∃ j : ℤ, cr.2 = some j ∧ 0 ≤ j ∧ j < 12 := by
    rw [hfaces]
    decide
  have hsome : ∀ f ∈ fs2, ∀ cr ∈ f,
      (cornerFloats { cubeInit with normals := ns, faces := fs2, has_normals := true }
        cr).isSome := by
    intro f hf cr hcr
    obtain ⟨hv0, hv8, j, hj, hj0, hj12⟩ := hcorners f hf cr hcr
    obtain ⟨a, b⟩ := cr
    simp only at hj
    subst hj
    exact hcf a j hv0 hv8 hj0 hj12
  have hvbo : init_vbo { cubeInit with normals := ns, faces := fs2, has_normals := true }
      = some (catMap (fun f => catMap (fun cr =>
        ((cornerFloats { cubeInit with normals := ns, faces := fs2, has_normals := true }
          cr).getD [])) f) fs2) := by
    unfold init_vbo
    rw [vboFaces_spec _ fs2 hsome []]
    rw [List.nil_append]
  have hflen : ∀ f ∈ fs2, f.length = 3 := by
    rw [hfaces]
    decide
  have hlen216 : (catMap (fun f => catMap (fun cr =>
      ((cornerFloats { cubeInit with normals := ns, faces := fs2, has_normals := true }
        cr).getD [])) f) fs2).length = 216 := by
    have h18 : ∀ f ∈ fs2, (catMap (fun cr =>
        ((cornerFloats { cubeInit with normals := ns, faces := fs2, has_normals := true }
          cr).getD [])) f).length = 18 := by
      intro f hf
      have h6 : ∀ cr ∈ f, ((cornerFloats
          { cubeInit with normals := ns, faces := fs2, has_normals := true }
          cr).getD []).length = 6 := by
        intro cr hcr
        obtain ⟨d, hd⟩ := Option.isSome_iff_exists.mp (hsome f hf cr hcr)
        rw [hd, Option.getD_some]
        exact cornerFloats_length _ _ _ hd
      rw [catMap_length _ 6 f h6, hflen f hf]
    rw [catMap_length _ 18 fs2 h18, hfs12]
  refine ⟨_, hcube, rfl, rfl, hfaces, hfs12, hns12, rfl, _, hvbo, hlen216, ?_⟩
  unfold vertex_count
  rw [hlen216]

/-- C9, witness for `cube_fixture` at a concrete square-root function. -/
theorem cube_fixture_witness :
    ∃ c, cube id = some c ∧
      c.vertices = [⟨-1, -1, -1⟩, ⟨1, -1, -1⟩, ⟨1, 1, -1⟩, ⟨-1, 1, -1⟩,
        ⟨-1, -1, 1⟩, ⟨1, -1, 1⟩, ⟨1, 1, 1⟩, ⟨-1, 1, 1⟩] ∧
      c.vertices.length = 8 ∧
      c.faces =
        [[((0 : ℤ), some (0 : ℤ)), (1, some 0), (2, some 0)],
         [(0, some 1), (2, some 1), (3, some 1)],
         [(4, some 2), (6, some 2), (5, some 2)],
         [(4, some 3), (7, some 3), (6, some 3)],
         [(0, some 4), (3, some 4), (7, some 4)],
         [(0, some 5), (7, some 5), (4, some 5)],
         [(1, some 6), (5, some 6), (6, some 6)],
         [(1, some 7), (6, some 7), (2, some 7)],
         [(3, some 8), (2, some 8), (6, some 8)],
         [(3, some 9), (6, some 9), (7, some 9)],
         [(0, some 10), (4, some 10), (5, some 10)],
         [(0, some 11), (5, some 11), (1, some 11)]] ∧
      c.faces.length = 12 ∧
      c.normals.length = 12 ∧
      c.has_normals = true ∧
      ∃ buf, init_vbo c = some buf ∧ buf.length = 216 ∧ vertex_count buf = 36 :=
  cube_fixture id

/-! ### Claim C7: parse counting -/

/-- Classification of a line as a vertex line, exactly the
`line.startswith('v ')` test. -/
def isVLine (l : String) : Bool := startsWithCh ("v ".toList) l.toList

/-- Classification as a normal line (`line.startswith('vn ')`). -/
def isVNLine (l : String) : Bool := startsWithCh ("vn ".toList) l.toList

/-- Classification as a face line (`line.startswith('f ')`). -/
def isFLine (l : String) : Bool := startsWithCh ("f ".toList) l.toList

/-- Number of triangles a face line with k corners contributes:
`max 1 (k - 2)` where `k = len(parts) - 1`. -/
def triCount (l : String) : ℕ :=
  max 1 ((words (pyStrip l.toList)).length - 1 - 2)

theorem vline_not_vn (l : String) (h : isVLine l = true) : isVNLine l = false := by
  obtain ⟨t, ht⟩ := (startsWithCh_iff _ _).mp h
  unfold isVNLine
  rw [ht]
  rfl

theorem vline_not_f (l : String) (h : isVLine l = true) : isFLine l = false := by
  obtain ⟨t, ht⟩ := (startsWithCh_iff _ _).mp h
  unfold isFLine
  rw [ht]
  rfl

theorem vnline_not_f (l : String) (h : isVNLine l = true) : isFLine l = false := by
  obtain ⟨t, ht⟩ := (startsWithCh_iff _ _).mp h
  unfold isFLine
  rw [ht]
  rfl

theorem parseCorners_length : ∀ (ps : List (List Char)) (cs : List Corner),
    parseCorners ps = some cs → cs.length = ps.length := by
  intro ps
  induction ps with
  | nil =>
    intro cs h
    simp only [parseCorners, Option.some.injEq] at h
    subst h
    rfl
  | cons p ps ih =>
    intro cs h
    unfold parseCorners at h
    cases hp : parseCorner p with
    | none => rw [hp] at h; exact absurd h (by simp)
    | some c =>
      rw [hp] at h
      dsimp only at h
      cases hps : parseCorners ps with
      | none => rw [hps] at h; exact absurd h (by simp)
      | some cs2 =>
        rw [hps] at h
        dsimp only at h
        simp only [Option.some.injEq] at h
        subst h
        simp [ih cs2 hps]

theorem triangulate_length (face : List Corner) :
    (triangulate face).length = max 1 (face.length - 2) := by
  unfold triangulate
  split
  · rename_i h
    rw [List.length_map, List.length_range']
    omega
  · rename_i h
    simp only [List.length_singleton]
    omega

theorem parseLine_v (m m2 : OBJModel ℚ) (l : String) (hv : isVLine l = true)
    (h : parseLine m l = some m2) :
    m2.vertices.length = m.vertices.length + 1 ∧ m2.normals = m.normals ∧
      m2.faces = m.faces := by
  unfold isVLine at hv
  simp only [parseLine, hv, if_true] at h
  split at h
  · simp only [Option.some.injEq] at h
    subst h
    simp
  · exact absurd h (by simp)

theorem parseLine_vn (m m2 : OBJModel ℚ) (l : String) (hvn : isVNLine l = true)
    (h : parseLine m l = some m2) :
    m2.normals.length = m.normals.length + 1 ∧ m2.vertices = m.vertices ∧
      m2.faces = m.faces := by
  unfold isVNLine at hvn
  have hv := notV_of_VN l.toList hvn
  simp only [parseLine, hv, hvn, if_true, Bool.false_eq_true, if_false] at h
  split at h
  · simp only [Option.some.injEq] at h
    subst h
    simp
  · exact absurd h (by simp)

theorem parseLine_f (m m2 : OBJModel ℚ) (l : String) (hf : isFLine l = true)
    (h : parseLine m l = some m2) :
    m2.faces.length = m.faces.length + triCount l ∧ m2.vertices = m.vertices ∧
      m2.normals = m.normals := by
  unfold isFLine at hf
  have hv := notV_of_F l.toList hf
  have hvn := notVN_of_F l.toList hf
  simp only [parseLine, hv, hvn, hf, if_true, Bool.false_eq_true, if_false] at h
  split at h
  · exact absurd h (by simp)
  · rename_i face hpc
    simp only [Option.some.injEq] at h
    subst h
    refine ⟨?_, rfl, rfl⟩
    have hlenf : face.length = (words (pyStrip l.toList)).length - 1 := by
      rw [parseCorners_length _ _ hpc, List.length_drop]
    simp only [List.length_append, triangulate_length, triCount]
    omega

theorem parseLine_other (m : OBJModel ℚ) (l : String) (h1 : isVLine l = false)
    (h2 : isVNLine l = false) (h3 : isFLine l = false) :
    parseLine m l = some m := by
  unfold isVLine at h1
  unfold isVNLine at h2
  unfold isFLine at h3
  simp only [parseLine, h1, h2, h3, Bool.false_eq_true, if_false]

theorem loadLines_counts : ∀ (lines : List String) (m m2 : OBJModel ℚ),
    loadLines m lines = some m2 →
    m2.vertices.length = m.vertices.length + (lines.filter isVLine).length ∧
    m2.normals.length = m.normals.length + (lines.filter isVNLine).length ∧
    m2.faces.length = m.faces.length + ((lines.filter isFLine).map triCount).sum := by
  intro lines
  induction lines with
  | nil =>
    intro m m2 h
    simp only [loadLines, Option.some.injEq] at h
    subst h
    simp
  | cons l ls ih =>
    intro m m2 h
    unfold loadLines at h
    cases hp : parseLine m l with
    | none => rw [hp] at h; exact absurd h (by simp)
    | some m1 =>
      rw [hp] at h
      dsimp only at h
      obtain ⟨ihv, ihn, ihf⟩ := ih m1 m2 h
      by_cases hv : isVLine l = true
      · have hvn := vline_not_vn l hv
        have hf := vline_not_f l hv
        obtain ⟨e1, e2, e3⟩ := parseLine_v m m1 l hv hp
        have e2L : m1.normals.length = m.normals.length := by rw [e2]
        have e3L : m1.faces.length = m.faces.length := by rw [e3]
        simp only [List.filter_cons, hv, hvn, hf, if_true, Bool.false_eq_true,
          if_false, List.length_cons]
        omega
      · have hvF : isVLine l = false := by
          revert hv; cases isVLine l <;> simp
        by_cases hvn : isVNLine l = true
        · have hf := vnline_not_f l hvn
          obtain ⟨e1, e2, e3⟩ := parseLine_vn m m1 l hvn hp
          have e2L : m1.vertices.length = m.vertices.length := by rw [e2]
          have e3L : m1.faces.length = m.faces.length := by rw [e3]
          simp only [List.filter_cons, hvF, hvn, hf, if_true, Bool.false_eq_true,
            if_false, List.length_cons]
          omega
        · have hvnF : isVNLine l = false := by
            revert hvn; cases isVNLine l <;> simp
          by_cases hf : isFLine l = true
          · obtain ⟨e1, e2, e3⟩ := parseLine_f m m1 l hf hp
            have e2L : m1.vertices.length = m.vertices.length := by rw [e2]
            have e3L : m1.normals.length = m.normals.length := by rw [e3]
            simp only [List.filter_cons, hvF, hvnF, hf, if_true, Bool.false_eq_true,
              if_false, List.map_cons, List.sum_cons]
            omega
          · have hfF : isFLine l = false := by
              revert hf; cases isFLine l <;> simp
            have hol := parseLine_other m l hvF hvnF hfF
            rw [hol] at hp
            simp only [Option.some.injEq] at hp
            subst hp
            simp only [List.filter_cons, hvF, hvnF, hfF, Bool.false_eq_true, if_false]
            omega

/-- C7: for every source that parses successfully, the model has exactly
one vertex per `v ` line, one normal per `vn ` line (ComputeNormals not
called), and a total of `sum of max 1 (k - 2)` stored triangles over the
`f ` lines with k corners; every line with any other leading token
leaves the model unchanged and never causes an error. -/
theorem parse_counts (lines : List String) (m : OBJModel ℚ)
    (h : parseOBJ lines = some m) :
    m.vertices.length = (lines.filter isVLine).length ∧
    m.normals.length = (lines.filter isVNLine).length ∧
    m.faces.length = ((lines.filter isFLine).map triCount).sum ∧
    (∀ (m0 : OBJModel ℚ) (l : String), isVLine l = false → isVNLine l = false →
      isFLine l = false → parseLine m0 l = some m0) := by
  unfold parseOBJ load_obj at h
  cases hll : loadLines emptyModel lines with
  | none => rw [hll] at h; exact absurd h (by simp)
  | some m2 =>
    rw [hll] at h
    dsimp only at h
    simp only [Option.some.injEq] at h
    subst h
    obtain ⟨hvv, hnn, hff⟩ := loadLines_counts lines emptyModel m2 hll
    exact ⟨by simpa [emptyModel] using hvv, by simpa [emptyModel] using hnn,
      by simpa [emptyModel] using hff,
      fun m0 l h1 h2 h3 => parseLine_other m0 l h1 h2 h3⟩

/-- Concrete source for C7's witness: one vertex line, one normal line,
one 4-corner face line (2 fan triangles), one ignored comment line. -/
def wLines : List String := ["v 1 2 3", "vn 0 0 1", "f 1//1 1//1 1//1 1//1", "# hi"]

/-- The model `wLines` parses to. -/
def wM7 : OBJModel ℚ :=
  { vertices := [⟨1, 2, 3⟩], normals := [⟨0, 0, 1⟩],
    faces := [[(0, some 0), (0, some 0), (0, some 0)],
              [(0, some 0), (0, some 0), (0, some 0)]],
    material_color := [1, 1, 1, 1], has_normals := true }

/-- C7, witness for `parse_counts` on `wLines`. -/
theorem parse_counts_witness :
    parseOBJ wLines = some wM7 ∧
    wM7.vertices.length = (wLines.filter isVLine).length ∧
    wM7.normals.length = (wLines.filter isVNLine).length ∧
    wM7.faces.length = ((wLines.filter isFLine).map triCount).sum := by
  have h : parseOBJ wLines = some wM7 := by decide
  obtain ⟨h1, h2, h3, _⟩ := parse_counts wLines wM7 h
  exact ⟨h, h1, h2, h3⟩

end Lumina
